import Mathlib

/-!
Shallow embedding of the CaféVibe order-fulfillment core (main game logic
source file): held-item model, recipe matching, order resolution and
economy accumulator (`serveToCustomer` / `completeOrder`), customer/order
lifecycle (`spawnCustomer`, the Entering→Waiting arrival step, `addOrder`,
leave completion), mini-games (`startMiniGame`, `handleMiniGameInput`,
`updateMiniGame`) and the shop (`buyUpgrade`).

Numbers are embedded as rationals (`ℚ`); JS object identity / `uuid` of a
customer object is embedded as a natural-number id handed out by a
fresh-id counter.  The static registries (`MENU_ITEMS`, `DRINK_RECIPES`,
`CONFIG`, `UPGRADES`) live in a configuration file that is not part of
the provided sources, so the embedded operations take them as parameters
(an association list of recipes, a menu list, a customer cap), exactly as
the functions read the corresponding globals.
-/

/-- The five ingredient flags a cup's `contents` record carries
(`grabCup` initializes exactly these, all `false`). -/
inductive Ingredient : Type
  | espresso
  | milk
  | vanilla
  | caramel
  | chocolate
  deriving DecidableEq, Repr, Fintype

/-- A record of one boolean per ingredient: used both for a cup's
`contents` and for a recipe's required-ingredient flags. -/
structure IngredientSet : Type where
  espresso : Bool
  milk : Bool
  vanilla : Bool
  caramel : Bool
  chocolate : Bool
  deriving DecidableEq, Repr

/-- Field lookup `record[ingredient]`. -/
def IngredientSet.get (s : IngredientSet) : Ingredient → Bool
  | .espresso => s.espresso
  | .milk => s.milk
  | .vanilla => s.vanilla
  | .caramel => s.caramel
  | .chocolate => s.chocolate

/-- Field update `record[ingredient] = b`. -/
def IngredientSet.set (s : IngredientSet) (i : Ingredient) (b : Bool) : IngredientSet :=
  match i with
  | .espresso => { s with espresso := b }
  | .milk => { s with milk := b }
  | .vanilla => { s with vanilla := b }
  | .caramel => { s with caramel := b }
  | .chocolate => { s with chocolate := b }

/-- The empty contents record of a fresh cup (`grabCup`). -/
def IngredientSet.empty : IngredientSet :=
  ⟨false, false, false, false, false⟩

/-- Menu item category: `item.type` is the string `drink` or `pastry`. -/
inductive ItemType : Type
  | drink
  | pastry
  deriving DecidableEq, Repr

/-- A menu item as the order logic sees it: its id (key into prices and
recipes) and its category. -/
structure MenuItem : Type where
  id : String
  type : ItemType
  deriving DecidableEq, Repr

/-- `DRINK_RECIPES`: map from drink id to its required-ingredient flags,
embedded as an association list (the JS object). -/
abbrev RecipeMap : Type := List (String × IngredientSet)

/-- The held item (`physicsState.grabbedObject`): a cup with `contents`
and `quality`, or a pastry with `quality` (`grabCup` / `grabPastry`). -/
inductive HeldItem : Type
  | cup (contents : IngredientSet) (quality : ℚ)
  | pastry (quality : ℚ)
  deriving DecidableEq, Repr

/-- `held.userData.quality` of either item kind. -/
def HeldItem.quality : HeldItem → ℚ
  | .cup _ q => q
  | .pastry q => q

/-- A recipe is satisfied by a cup's contents when every ingredient the
recipe requires is flagged in the contents — the inner loop of
`serveToCustomer`: `if (required && !contents[ingredient]) matches = false`. -/
def recipeSatisfied (recipe contents : IngredientSet) : Bool :=
  (!recipe.espresso || contents.espresso) &&
  (!recipe.milk || contents.milk) &&
  (!recipe.vanilla || contents.vanilla) &&
  (!recipe.caramel || contents.caramel) &&
  (!recipe.chocolate || contents.chocolate)

/-- The matching step of `serveToCustomer` (its `matchFound` flag): a held
pastry matches iff the order lists any pastry; a held cup matches iff some
drink line's recipe (when registered in `DRINK_RECIPES`) is fully
satisfied by the cup's contents. -/
def itemMatchesOrder (recipes : RecipeMap) (held : HeldItem) (items : List MenuItem) : Bool :=
  match held with
  | .pastry _ => items.any (fun item => item.type == ItemType.pastry)
  | .cup contents _ =>
      items.any (fun item =>
        item.type == ItemType.drink &&
          (match recipes.lookup item.id with
           | some recipe => recipeSatisfied recipe contents
           | none => false))

/-- Customer state string: `entering`, `waiting` or `leaving`. -/
inductive CState : Type
  | entering
  | waiting
  | leaving
  deriving DecidableEq, Repr

/-- A customer entity (`spawnCustomer`'s `userData` plus its identity):
the JS object reference / `uuid` is embedded as the numeric `id`;
`orderContent` is `userData.order` (set at spawn, absent only for objects
never touched by `spawnCustomer`). -/
structure Customer : Type where
  id : ℕ
  customerType : String
  cstate : CState
  orderContent : Option (List MenuItem)
  deriving DecidableEq, Repr

/-- An entry of `gameState.activeOrders` (`addOrder`): the customer
reference (as id), the items, and `startTime = Date.now()`. -/
structure Order : Type where
  customerId : ℕ
  items : List MenuItem
  startTime : ℕ
  deriving DecidableEq, Repr

/-- The session state the order-fulfillment core mutates: `gameState`
(money, rating, customersServed, activeOrders, customers, menuPrices,
ownedUpgrades) together with the single held-item slot
(`physicsState.grabbedObject`); `nextId` models the supply of fresh
object identities (uuids). -/
structure GameState : Type where
  money : ℚ
  rating : ℚ
  customersServed : ℕ
  activeOrders : List Order
  customers : List Customer
  menuPrices : List (String × ℚ)
  grabbedObject : Option HeldItem
  ownedUpgrades : List String
  nextId : ℕ
  deriving DecidableEq, Repr

/-- `gameState.menuPrices[item.id] || 4`: the menu price of an item, with
the JS falsy fallback (a missing id, or a listed price of exactly 0,
yields 4). -/
def priceOf (menuPrices : List (String × ℚ)) (id : String) : ℚ :=
  match menuPrices.lookup id with
  | some p => if p = 0 then 4 else p
  | none => 4

/-- `order.items.reduce((sum, item) => sum + (menuPrices[item.id] || 4), 0)`. -/
def orderPayment (menuPrices : List (String × ℚ)) (items : List MenuItem) : ℚ :=
  items.foldl (fun sum item => sum + priceOf menuPrices item.id) 0

/-- `animateCustomerLeave` as seen by the core state: the customer object
referenced by the completed order gets `userData.state = 'leaving'`. -/
def setLeaving (cs : List Customer) (cid : ℕ) : List Customer :=
  cs.map (fun d => if d.id = cid then { d with cstate := .leaving } else d)

/-- `completeOrder(orderIndex, quality)`: payment from menu prices, tip
`floor(payment * 0.2 * tipMultiplier)` with multiplier 1.3 / 1.1 / 0.8 by
quality thresholds 80 / 50, money and served-count update, rating
clamped to [1, 5] after a +0.1 / 0 / −0.1 delta, removal of the order,
and the customer transitioning to leaving. -/
def completeOrder (st : GameState) (orderIndex : ℕ) (quality : ℚ) : GameState :=
  match st.activeOrders.get? orderIndex with
  | none => st
  | some order =>
      let payment := orderPayment st.menuPrices order.items
      let tipMultiplier : ℚ :=
        if quality ≥ 80 then 13 / 10 else if quality ≥ 50 then 11 / 10 else 4 / 5
      let tip : ℤ := ⌊payment * (1 / 5) * tipMultiplier⌋
      let total : ℚ := payment + tip
      { st with
        money := st.money + total
        customersServed := st.customersServed + 1
        rating := max 1 (min 5 (st.rating +
          (if quality ≥ 80 then 1 / 10 else if quality ≥ 50 then 0 else -(1 / 10))))
        activeOrders := st.activeOrders.eraseIdx orderIndex
        customers := setLeaving st.customers order.customerId }

/-- The quality `serveToCustomer` forwards to `completeOrder`:
`held.userData.quality || 100` (a quality of exactly 0 is falsy in JS and
falls back to 100). -/
def servedQuality (held : HeldItem) : ℚ :=
  if held.quality = 0 then 100 else held.quality

/-- `Array.prototype.findIndex`: the index of the first element
satisfying the predicate. -/
def findIdxOpt {α : Type} (p : α → Bool) : List α → Option ℕ
  | [] => none
  | a :: as => if p a then some 0 else (findIdxOpt p as).map (· + 1)

/-- The distinct outcomes of `serveToCustomer`, one per notification
branch plus success. -/
inductive ServeOutcome : Type
  | nothingToServe
  | stillWalking
  | orderPending
  | noOrder
  | wrongItem
  | served
  deriving DecidableEq, Repr

/-- `serveToCustomer(customer)`: reject when nothing is held, when the
customer is still entering, or when no active order references the
customer (with the pending/no-order message split on whether
`userData.order` is set — both lookup passes of the source, by reference
and by uuid, test the same identity here, so they collapse into one
`findIdxOpt`); otherwise match the held item against the order and on a
match run `completeOrder` with `quality || 100` and clear the held slot. -/
def serveToCustomer (recipes : RecipeMap) (st : GameState) (customer : Customer) :
    ServeOutcome × GameState :=
  match st.grabbedObject with
  | none => (.nothingToServe, st)
  | some held =>
      if customer.cstate = .entering then (.stillWalking, st)
      else
        match findIdxOpt (fun o => o.customerId == customer.id) st.activeOrders with
        | none =>
            if customer.orderContent.isSome then (.orderPending, st) else (.noOrder, st)
        | some orderIndex =>
            match st.activeOrders.get? orderIndex with
            | none => (.noOrder, st)
            | some order =>
                if itemMatchesOrder recipes held order.items then
                  let st1 := completeOrder st orderIndex (servedQuality held)
                  (.served, { st1 with grabbedObject := none })
                else (.wrongItem, st)

/-- `addToCup(cup, contentType)`: flags the ingredient in the cup's
contents; items without a `contents` record (pastries) are untouched.
The cup's `quality` field is not written here (nor anywhere else after
creation). -/
def addToCup (held : HeldItem) (contentType : Ingredient) : HeldItem :=
  match held with
  | .cup contents q => .cup (contents.set contentType true) q
  | .pastry q => .pastry q

/-- The cup `grabCup` creates: all contents flags false, quality 100. -/
def freshCup : HeldItem := .cup IngredientSet.empty 100

/-- The pastry `grabPastry` creates: quality 100. -/
def freshPastry : HeldItem := .pastry 100

/-- `generateOrder()`: one drink picked from the drink menu items by a
uniform draw `r1 ∈ [0,1)`, plus, when `r2 < 0.3`, one pastry picked by
`r3`. -/
def generateOrder (menu : List MenuItem) (r1 r2 r3 : ℚ) : List MenuItem :=
  let drinks := menu.filter (fun i => i.type == ItemType.drink)
  let items := (drinks.get? (⌊r1 * drinks.length⌋).toNat).toList
  if r2 < 3 / 10 then
    let pastries := menu.filter (fun i => i.type == ItemType.pastry)
    items ++ (pastries.get? (⌊r3 * pastries.length⌋).toNat).toList
  else items

/-- `spawnCustomer()`: rejected at the customer cap, otherwise creates a
fresh customer in state `entering` whose `userData.order` is already the
generated order content, and appends it to `gameState.customers`
(`activeOrders` is untouched here). -/
def spawnCustomer (menu : List MenuItem) (maxCustomers : ℕ) (st : GameState)
    (customerType : String) (r1 r2 r3 : ℚ) : GameState :=
  if st.customers.length ≥ maxCustomers then st
  else
    let cust : Customer :=
      { id := st.nextId
        customerType := customerType
        cstate := .entering
        orderContent := some (generateOrder menu r1 r2 r3) }
    { st with customers := st.customers ++ [cust], nextId := st.nextId + 1 }

/-- The arrival branch of `animateCustomerEnter` (distance below the 0.1
threshold, customer still entering): set `userData.state = 'waiting'` and
run `addOrder(customer)`, pushing the order onto `activeOrders` with
`startTime = Date.now()`. -/
def arriveAtCounter (st : GameState) (cid : ℕ) (now : ℕ) : GameState :=
  match st.customers.find? (fun c => c.id == cid) with
  | none => st
  | some c =>
      if c.cstate = .entering then
        { st with
          customers :=
            st.customers.map (fun d => if d.id = cid then { d with cstate := .waiting } else d)
          activeOrders :=
            st.activeOrders ++ [{ customerId := cid, items := c.orderContent.getD [], startTime := now }] }
      else st

/-- The removal branch of `animateCustomerLeave` (customer walked past
`z = 12` while leaving): the customer is spliced out of
`gameState.customers`; its order was already removed at resolution. -/
def removeLeavingCustomer (st : GameState) (cid : ℕ) : GameState :=
  match st.customers.find? (fun c => c.id == cid) with
  | none => st
  | some c =>
      if c.cstate = .leaving then
        { st with customers := st.customers.eraseP (fun d => d.id == cid) }
      else st

/-- A shop upgrade as `buyUpgrade` reads it: id and price (the static
`UPGRADES` table lives in the configuration file outside the provided
sources; per the spec upgrades are static definitions, so the `effect`
hook is modelled as not touching the economy fields). -/
structure Upgrade : Type where
  id : String
  price : ℚ
  deriving DecidableEq, Repr

/-- `buyUpgrade(upgrade)`: reject (no state change) when
`money < price`; otherwise deduct the price and push the id onto
`ownedUpgrades` — no ownership check of its own. -/
def buyUpgrade (st : GameState) (u : Upgrade) : GameState :=
  if st.money < u.price then st
  else { st with money := st.money - u.price, ownedUpgrades := st.ownedUpgrades ++ [u.id] }

/-- `miniGameState.type`. -/
inductive MiniGameType : Type
  | timing
  | tap
  deriving DecidableEq, Repr

/-- `miniGameState`: the modal mini-game session record. -/
structure MiniGameState : Type where
  active : Bool
  type : MiniGameType
  markerPos : ℚ
  markerDirection : ℚ
  targetStart : ℚ
  targetEnd : ℚ
  tapProgress : ℚ
  tapRequired : ℕ
  quality : ℚ
  startTime : ℕ
  deriving DecidableEq, Repr

/-- The initial `miniGameState` literal of the source. -/
def initialMiniGameState : MiniGameState :=
  { active := false
    type := .timing
    markerPos := 0
    markerDirection := 1
    targetStart := 35
    targetEnd := 65
    tapProgress := 0
    tapRequired := 12
    quality := 0
    startTime := 0 }

/-- `startMiniGame(type)`: activates the session, resets marker, tap
counter and quality, records the start time, and for the timing game
draws `targetStart = 30 + r * 20` from a uniform `r ∈ [0,1)` with
`targetEnd = targetStart + 20` (`tapRequired` is never reassigned). -/
def startMiniGame (ms : MiniGameState) (type : MiniGameType) (r : ℚ) (now : ℕ) : MiniGameState :=
  let base : MiniGameState :=
    { ms with
      active := true
      type := type
      quality := 0
      markerPos := 0
      markerDirection := 1
      tapProgress := 0
      startTime := now }
  match type with
  | .timing => { base with targetStart := 30 + r * 20, targetEnd := 30 + r * 20 + 20 }
  | .tap => base

/-- The timing-game scoring of `handleMiniGameInput`: perfect zone
`[start+5, end−5]` → 100, good zone `[start, end]` → 70, close zone
`[start−10, end+10]` → 40, else 10. -/
def timingQuality (targetStart targetEnd pos : ℚ) : ℚ :=
  if targetStart + 5 ≤ pos ∧ pos ≤ targetEnd - 5 then 100
  else if targetStart ≤ pos ∧ pos ≤ targetEnd then 70
  else if targetStart - 10 ≤ pos ∧ pos ≤ targetEnd + 10 then 40
  else 10

/-- `handleMiniGameInput()` at time `now`: ignored when inactive; the
timing game scores the marker position once and ends; the tap game
increments the counter by 1 and, exactly when the counter reaches
`tapRequired`, scores 100 / 70 / 40 by elapsed time below 2000 ms /
3500 ms and ends (`endMiniGame` clears `active`). -/
def handleMiniGameInput (ms : MiniGameState) (now : ℕ) : MiniGameState :=
  if !ms.active then ms
  else
    match ms.type with
    | .timing =>
        { ms with
          quality := timingQuality ms.targetStart ms.targetEnd ms.markerPos
          active := false }
    | .tap =>
        let p := ms.tapProgress + 1
        if p ≥ (ms.tapRequired : ℚ) then
          let elapsed := now - ms.startTime
          { ms with
            tapProgress := p
            quality := if elapsed < 2000 then 100 else if elapsed < 3500 then 70 else 40
            active := false }
        else { ms with tapProgress := p }

/-- One `updateMiniGame()` frame tick: ignored when inactive; the timing
marker advances by `direction * 1.2` and bounces at 0 / 100; the tap
counter decays by 0.03 whenever it is positive — no completion check and
no floor on the stored counter (only the rendered meter width is clamped). -/
def updateMiniGame (ms : MiniGameState) : MiniGameState :=
  if !ms.active then ms
  else
    match ms.type with
    | .timing =>
        let pos := ms.markerPos + ms.markerDirection * (12 / 10)
        if pos ≥ 100 ∨ pos ≤ 0 then
          { ms with markerPos := pos, markerDirection := -ms.markerDirection }
        else { ms with markerPos := pos }
    | .tap =>
        if ms.tapProgress > 0 then { ms with tapProgress := ms.tapProgress - 3 / 100 }
        else ms

/-- `n` consecutive `updateMiniGame()` ticks. -/
def updateMiniGameTicks : ℕ → MiniGameState → MiniGameState
  | 0, ms => ms
  | n + 1, ms => updateMiniGameTicks n (updateMiniGame ms)

theorem recipeSatisfied_iff (recipe contents : IngredientSet) :
    recipeSatisfied recipe contents = true ↔
      ∀ i : Ingredient, recipe.get i = true → contents.get i = true := by
  obtain ⟨a1, a2, a3, a4, a5⟩ := recipe
  obtain ⟨b1, b2, b3, b4, b5⟩ := contents
  cases a1 <;> cases a2 <;> cases a3 <;> cases a4 <;> cases a5 <;>
    cases b1 <;> cases b2 <;> cases b3 <;> cases b4 <;> cases b5 <;> decide

lemma IngredientSet.get_set_true_mono (s : IngredientSet) (i j : Ingredient)
    (h : s.get j = true) : (s.set i true).get j = true := by
  cases i <;> cases j <;> simp_all [IngredientSet.get, IngredientSet.set]

lemma itemMatchesOrder_pastry_iff (recipes : RecipeMap) (q : ℚ) (items : List MenuItem) :
    itemMatchesOrder recipes (.pastry q) items = true ↔
      ∃ item ∈ items, item.type = ItemType.pastry := by
  simp [itemMatchesOrder, List.any_eq_true]

lemma itemMatchesOrder_cup_iff (recipes : RecipeMap) (contents : IngredientSet) (q : ℚ)
    (items : List MenuItem) :
    itemMatchesOrder recipes (.cup contents q) items = true ↔
      ∃ item ∈ items, item.type = ItemType.drink ∧
        ∃ recipe, recipes.lookup item.id = some recipe ∧
          ∀ i : Ingredient, recipe.get i = true → contents.get i = true := by
  simp only [itemMatchesOrder, List.any_eq_true, Bool.and_eq_true, beq_iff_eq]
  constructor
  · rintro ⟨item, hmem, htype, hmatch⟩
    refine ⟨item, hmem, htype, ?_⟩
    cases hl : recipes.lookup item.id with
    | none => rw [hl] at hmatch; exact absurd hmatch (by simp)
    | some recipe =>
        rw [hl] at hmatch
        exact ⟨recipe, rfl, (recipeSatisfied_iff recipe contents).mp hmatch⟩
  · rintro ⟨item, hmem, htype, recipe, hl, hsat⟩
    refine ⟨item, hmem, htype, ?_⟩
    rw [hl]
    exact (recipeSatisfied_iff recipe contents).mpr hsat

/-- C1: in `serveToCustomer`, a held pastry matches iff the targeted
customer's order contains at least one pastry item, and a held cup
matches iff some drink item of the order has a registered recipe every
required ingredient of which is flagged true in the cup's contents; the
right-hand sides mention only the required flags, so contents flags not
required by the recipe never cause the match to fail. -/
theorem serve_matching_characterization (recipes : RecipeMap) (items : List MenuItem) :
    (∀ q : ℚ, itemMatchesOrder recipes (.pastry q) items = true ↔
        ∃ item ∈ items, item.type = ItemType.pastry) ∧
    (∀ (contents : IngredientSet) (q : ℚ),
        itemMatchesOrder recipes (.cup contents q) items = true ↔
          ∃ item ∈ items, item.type = ItemType.drink ∧
            ∃ recipe, recipes.lookup item.id = some recipe ∧
              ∀ i : Ingredient, recipe.get i = true → contents.get i = true) :=
  ⟨fun q => itemMatchesOrder_pastry_iff recipes q items,
   fun contents q => itemMatchesOrder_cup_iff recipes contents q items⟩

/-- C9: recipe matching is monotonic in the cup's contents — if a cup
matches the order, the cup with any one additional ingredient flag set
still matches. -/
theorem serve_matching_monotonic (recipes : RecipeMap) (items : List MenuItem)
    (contents : IngredientSet) (q : ℚ) (i : Ingredient)
    (h : itemMatchesOrder recipes (.cup contents q) items = true) :
    itemMatchesOrder recipes (.cup (contents.set i true) q) items = true := by
  rw [itemMatchesOrder_cup_iff] at h ⊢
  obtain ⟨item, hmem, htype, recipe, hl, hsat⟩ := h
  exact ⟨item, hmem, htype, recipe, hl,
    fun j hj => IngredientSet.get_set_true_mono contents i j (hsat j hj)⟩

/-- The drink registry and order used by the concrete witnesses: a latte
requiring espresso and milk. -/
def demoRecipes : RecipeMap := [("latte", ⟨true, true, false, false, false⟩)]

/-- A one-line order holding the demo latte. -/
def demoItems : List MenuItem := [⟨"latte", ItemType.drink⟩]

theorem serve_matching_monotonic_witness :
    itemMatchesOrder demoRecipes (.cup ⟨true, true, false, false, false⟩ 100) demoItems = true ∧
    itemMatchesOrder demoRecipes
      (.cup ((⟨true, true, false, false, false⟩ : IngredientSet).set .vanilla true) 100)
      demoItems = true :=
  ⟨by decide, serve_matching_monotonic demoRecipes demoItems _ 100 .vanilla (by decide)⟩


lemma timingQuality_eq_100_iff (ts te p : ℚ) :
    timingQuality ts te p = 100 ↔ ts + 5 ≤ p ∧ p ≤ te - 5 := by
  rw [timingQuality]
  split_ifs with ha hb hc
  · exact ⟨fun _ => ha, fun _ => rfl⟩
  · exact ⟨fun h => absurd h (by norm_num), fun h => absurd h ha⟩
  · exact ⟨fun h => absurd h (by norm_num), fun h => absurd h ha⟩
  · exact ⟨fun h => absurd h (by norm_num), fun h => absurd h ha⟩

lemma timingQuality_eq_70_iff (ts te p : ℚ) :
    timingQuality ts te p = 70 ↔ (ts ≤ p ∧ p ≤ te) ∧ ¬(ts + 5 ≤ p ∧ p ≤ te - 5) := by
  rw [timingQuality]
  split_ifs with ha hb hc
  · exact ⟨fun h => absurd h (by norm_num), fun h => absurd ha h.2⟩
  · exact ⟨fun _ => ⟨hb, ha⟩, fun _ => rfl⟩
  · exact ⟨fun h => absurd h (by norm_num), fun h => absurd h.1 hb⟩
  · exact ⟨fun h => absurd h (by norm_num), fun h => absurd h.1 hb⟩

lemma timingQuality_eq_40_iff (ts te p : ℚ) :
    timingQuality ts te p = 40 ↔
      (ts - 10 ≤ p ∧ p ≤ te + 10) ∧ ¬(ts ≤ p ∧ p ≤ te) := by
  rw [timingQuality]
  split_ifs with ha hb hc
  · exact ⟨fun h => absurd h (by norm_num),
      fun h => absurd ⟨by linarith [ha.1], by linarith [ha.2]⟩ h.2⟩
  · exact ⟨fun h => absurd h (by norm_num), fun h => absurd hb h.2⟩
  · exact ⟨fun _ => ⟨hc, hb⟩, fun _ => rfl⟩
  · exact ⟨fun h => absurd h (by norm_num), fun h => absurd h.1 hc⟩

lemma timingQuality_eq_10_iff (ts te p : ℚ) :
    timingQuality ts te p = 10 ↔ ¬(ts - 10 ≤ p ∧ p ≤ te + 10) := by
  rw [timingQuality]
  split_ifs with ha hb hc
  · exact ⟨fun h => absurd h (by norm_num),
      fun h => absurd ⟨by linarith [ha.1], by linarith [ha.2]⟩ h⟩
  · exact ⟨fun h => absurd h (by norm_num),
      fun h => absurd ⟨by linarith [hb.1], by linarith [hb.2]⟩ h⟩
  · exact ⟨fun h => absurd h (by norm_num), fun h => absurd hc h⟩
  · exact ⟨fun _ => hc, fun _ => rfl⟩

/-- C6: the timing mini-game draws `targetStart = 30 + r·20 ∈ [30,50)`
from a uniform draw `r ∈ [0,1)` with window `[targetStart, targetStart+20]`;
a single input scores the marker position once and ends the game, with
quality 100 on `[start+5, end−5]`, else 70 on `[start, end]`, else 40 on
`[start−10, end+10]`, else 10; with the target window starting at 35,
positions 47 / 38 / 28 / 5 score 100 / 70 / 40 / 10. -/
theorem timing_game_scoring (ms : MiniGameState) (r : ℚ) (now : ℕ)
    (h0 : 0 ≤ r) (h1 : r < 1) :
    (30 ≤ (startMiniGame ms .timing r now).targetStart ∧
     (startMiniGame ms .timing r now).targetStart < 50 ∧
     (startMiniGame ms .timing r now).targetEnd =
       (startMiniGame ms .timing r now).targetStart + 20) ∧
    (∀ s : MiniGameState, s.active = true → s.type = .timing →
      (handleMiniGameInput s now).quality = timingQuality s.targetStart s.targetEnd s.markerPos ∧
      (handleMiniGameInput s now).active = false) ∧
    (∀ ts te p : ℚ,
      (timingQuality ts te p = 100 ↔ ts + 5 ≤ p ∧ p ≤ te - 5) ∧
      (timingQuality ts te p = 70 ↔ (ts ≤ p ∧ p ≤ te) ∧ ¬(ts + 5 ≤ p ∧ p ≤ te - 5)) ∧
      (timingQuality ts te p = 40 ↔
        (ts - 10 ≤ p ∧ p ≤ te + 10) ∧ ¬(ts ≤ p ∧ p ≤ te)) ∧
      (timingQuality ts te p = 10 ↔ ¬(ts - 10 ≤ p ∧ p ≤ te + 10))) ∧
    (timingQuality 35 55 47 = 100 ∧ timingQuality 35 55 38 = 70 ∧
     timingQuality 35 55 28 = 40 ∧ timingQuality 35 55 5 = 10) ∧
    (timingQuality 35 65 47 = 100 ∧ timingQuality 35 65 38 = 70 ∧
     timingQuality 35 65 28 = 40 ∧ timingQuality 35 65 5 = 10) := by
  have hs : (startMiniGame ms .timing r now).targetStart = 30 + r * 20 := rfl
  have he : (startMiniGame ms .timing r now).targetEnd = 30 + r * 20 + 20 := rfl
  refine ⟨⟨?_, ?_, ?_⟩, ?_, ?_, ⟨?_, ?_, ?_, ?_⟩, ?_, ?_, ?_, ?_⟩
  · rw [hs]; linarith
  · rw [hs]; linarith
  · rw [hs, he]
  · intro s hact htype
    simp [handleMiniGameInput, hact, htype]
  · exact fun ts te p =>
      ⟨timingQuality_eq_100_iff ts te p, timingQuality_eq_70_iff ts te p,
       timingQuality_eq_40_iff ts te p, timingQuality_eq_10_iff ts te p⟩
  · norm_num [timingQuality]
  · norm_num [timingQuality]
  · norm_num [timingQuality]
  · norm_num [timingQuality]
  · norm_num [timingQuality]
  · norm_num [timingQuality]
  · norm_num [timingQuality]
  · norm_num [timingQuality]

theorem timing_game_scoring_witness :
    0 ≤ (1 / 4 : ℚ) ∧ (1 / 4 : ℚ) < 1 ∧
    ((30 ≤ (startMiniGame initialMiniGameState .timing (1 / 4) 0).targetStart ∧
      (startMiniGame initialMiniGameState .timing (1 / 4) 0).targetStart < 50 ∧
      (startMiniGame initialMiniGameState .timing (1 / 4) 0).targetEnd =
        (startMiniGame initialMiniGameState .timing (1 / 4) 0).targetStart + 20) ∧
     (∀ s : MiniGameState, s.active = true → s.type = .timing →
       (handleMiniGameInput s 0).quality = timingQuality s.targetStart s.targetEnd s.markerPos ∧
       (handleMiniGameInput s 0).active = false) ∧
     (∀ ts te p : ℚ,
       (timingQuality ts te p = 100 ↔ ts + 5 ≤ p ∧ p ≤ te - 5) ∧
       (timingQuality ts te p = 70 ↔ (ts ≤ p ∧ p ≤ te) ∧ ¬(ts + 5 ≤ p ∧ p ≤ te - 5)) ∧
       (timingQuality ts te p = 40 ↔
         (ts - 10 ≤ p ∧ p ≤ te + 10) ∧ ¬(ts ≤ p ∧ p ≤ te)) ∧
       (timingQuality ts te p = 10 ↔ ¬(ts - 10 ≤ p ∧ p ≤ te + 10))) ∧
     (timingQuality 35 55 47 = 100 ∧ timingQuality 35 55 38 = 70 ∧
      timingQuality 35 55 28 = 40 ∧ timingQuality 35 55 5 = 10) ∧
     (timingQuality 35 65 47 = 100 ∧ timingQuality 35 65 38 = 70 ∧
      timingQuality 35 65 28 = 40 ∧ timingQuality 35 65 5 = 10)) :=
  ⟨by norm_num, by norm_num,
   timing_game_scoring initialMiniGameState (1 / 4) 0 (by norm_num) (by norm_num)⟩


/-- C7 counterexample: from a fresh tap session, one tap (counter 1)
followed by 34 decay ticks leaves the stored tap counter at −1/50 < 0 —
the decay step applies whenever the counter is positive and is not
floored, so the counter does go below 0 (only the rendered meter width
is clamped at 0). -/
theorem tap_counter_goes_negative :
    (updateMiniGameTicks 34
      (handleMiniGameInput (startMiniGame initialMiniGameState .tap 0 0) 0)).tapProgress
      = -(1 / 50) ∧
    (updateMiniGameTicks 34
      (handleMiniGameInput (startMiniGame initialMiniGameState .tap 0 0) 0)).tapProgress
      < 0 := by
  have h1 : handleMiniGameInput (startMiniGame initialMiniGameState .tap 0 0) 0
      = { active := true, type := .tap, markerPos := 0, markerDirection := 1,
          targetStart := 35, targetEnd := 65, tapProgress := 1, tapRequired := 12,
          quality := 0, startTime := 0 } := by
    norm_num [startMiniGame, initialMiniGameState, handleMiniGameInput]
  rw [h1]
  norm_num [updateMiniGameTicks, updateMiniGame]

/-- C7 (amended): each input increments the tap counter by exactly 1;
between inputs the counter decays by 0.03 per update tick while positive
(a single decay step can therefore leave it slightly below 0, though
always above −0.03; only the displayed meter is floored at 0) and decay
never ends the session or touches the quality; completion fires exactly
when an input brings the counter to the required 12, with quality 100 if
elapsed time since start < 2000 ms, 70 if < 3500 ms, else 40. -/
theorem tap_game_scoring (s : MiniGameState) (now : ℕ)
    (hact : s.active = true) (htype : s.type = .tap) :
    (handleMiniGameInput s now).tapProgress = s.tapProgress + 1 ∧
    ((handleMiniGameInput s now).active = false ↔
      s.tapProgress + 1 ≥ (s.tapRequired : ℚ)) ∧
    (s.tapProgress + 1 ≥ (s.tapRequired : ℚ) →
      (handleMiniGameInput s now).quality =
        (if now - s.startTime < 2000 then 100
         else if now - s.startTime < 3500 then 70 else 40)) ∧
    (s.tapProgress > 0 → (updateMiniGame s).tapProgress = s.tapProgress - 3 / 100) ∧
    (¬s.tapProgress > 0 → (updateMiniGame s).tapProgress = s.tapProgress) ∧
    (updateMiniGame s).active = s.active ∧
    (updateMiniGame s).quality = s.quality ∧
    (-(3 / 100) < s.tapProgress → -(3 / 100) < (updateMiniGame s).tapProgress) := by
  obtain ⟨act, ty, mp, md, tstart, tend, tp, tr, q, stime⟩ := s
  replace hact : act = true := hact
  replace htype : ty = MiniGameType.tap := htype
  subst hact htype
  have hcase : handleMiniGameInput
      ⟨true, MiniGameType.tap, mp, md, tstart, tend, tp, tr, q, stime⟩ now =
      (if tp + 1 ≥ (tr : ℚ) then
        ⟨false, MiniGameType.tap, mp, md, tstart, tend, tp + 1, tr,
          (if now - stime < 2000 then 100 else if now - stime < 3500 then 70 else 40), stime⟩
       else ⟨true, MiniGameType.tap, mp, md, tstart, tend, tp + 1, tr, q, stime⟩) := rfl
  have hupd : updateMiniGame
      ⟨true, MiniGameType.tap, mp, md, tstart, tend, tp, tr, q, stime⟩ =
      (if tp > 0 then
        ⟨true, MiniGameType.tap, mp, md, tstart, tend, tp - 3 / 100, tr, q, stime⟩
       else ⟨true, MiniGameType.tap, mp, md, tstart, tend, tp, tr, q, stime⟩) := rfl
  refine ⟨?_, ?_, ?_, ?_, ?_, ?_, ?_, ?_⟩
  · rw [hcase]; split_ifs <;> rfl
  · rw [hcase]; split_ifs with h <;> simp [h]
  · intro hge; rw [hcase, if_pos hge]
  · intro hpos; rw [hupd, if_pos hpos]
  · intro hneg; rw [hupd, if_neg hneg]
  · rw [hupd]; split_ifs <;> rfl
  · rw [hupd]; split_ifs <;> rfl
  · intro hgt; rw [hupd]; split_ifs with h
    · show -(3 / 100 : ℚ) < tp - 3 / 100
      linarith
    · exact hgt

theorem tap_game_scoring_witness :
    (({ active := true, type := .tap, markerPos := 0, markerDirection := 1,
        targetStart := 35, targetEnd := 65, tapProgress := 11, tapRequired := 12,
        quality := 0, startTime := 0 } : MiniGameState).active = true ∧
     ({ active := true, type := .tap, markerPos := 0, markerDirection := 1,
        targetStart := 35, targetEnd := 65, tapProgress := 11, tapRequired := 12,
        quality := 0, startTime := 0 } : MiniGameState).type = .tap) ∧
    (handleMiniGameInput
      { active := true, type := .tap, markerPos := 0, markerDirection := 1,
        targetStart := 35, targetEnd := 65, tapProgress := 11, tapRequired := 12,
        quality := 0, startTime := 0 } 1500).quality = 100 ∧
    (handleMiniGameInput
      { active := true, type := .tap, markerPos := 0, markerDirection := 1,
        targetStart := 35, targetEnd := 65, tapProgress := 11, tapRequired := 12,
        quality := 0, startTime := 0 } 1500).active = false :=
  ⟨⟨rfl, rfl⟩,
   by
    have h := tap_game_scoring
      { active := true, type := .tap, markerPos := 0, markerDirection := 1,
        targetStart := 35, targetEnd := 65, tapProgress := 11, tapRequired := 12,
        quality := 0, startTime := 0 } 1500 rfl rfl
    have hq := h.2.2.1 (by norm_num)
    simpa using hq,
   by
    have h := tap_game_scoring
      { active := true, type := .tap, markerPos := 0, markerDirection := 1,
        targetStart := 35, targetEnd := 65, tapProgress := 11, tapRequired := 12,
        quality := 0, startTime := 0 } 1500 rfl rfl
    exact h.2.1.mpr (by norm_num)⟩

lemma buyUpgrade_money_nonneg (st : GameState) (u : Upgrade) (h : 0 ≤ st.money) :
    0 ≤ (buyUpgrade st u).money := by
  rw [buyUpgrade]
  split_ifs with hlt
  · exact h
  · simp only
    linarith [not_lt.mp hlt]

/-- C8: `buyUpgrade` rejects the purchase entirely when `money < price`
(the whole state is unchanged), and consequently money stays non-negative
across every sequence of `buyUpgrade` calls started with non-negative
money. -/
theorem buyUpgrade_never_negative (st : GameState) (h : 0 ≤ st.money) :
    (∀ u : Upgrade, st.money < u.price → buyUpgrade st u = st) ∧
    (∀ us : List Upgrade, 0 ≤ (us.foldl buyUpgrade st).money) := by
  refine ⟨fun u hlt => ?_, fun us => ?_⟩
  · rw [buyUpgrade, if_pos hlt]
  · induction us generalizing st with
    | nil => exact h
    | cons u us ih =>
        exact ih (buyUpgrade st u) (buyUpgrade_money_nonneg st u h)

/-- The concrete session used by the `GameState` witnesses. -/
def demoState : GameState :=
  { money := 100
    rating := 5
    customersServed := 0
    activeOrders := []
    customers := []
    menuPrices := [("latte", 5)]
    grabbedObject := none
    ownedUpgrades := []
    nextId := 0 }

theorem buyUpgrade_never_negative_witness :
    0 ≤ demoState.money ∧
    ((∀ u : Upgrade, demoState.money < u.price → buyUpgrade demoState u = demoState) ∧
     (∀ us : List Upgrade, 0 ≤ (us.foldl buyUpgrade demoState).money)) :=
  ⟨by norm_num [demoState], buyUpgrade_never_negative demoState (by norm_num [demoState])⟩

/-- C10: `buyUpgrade` performs no ownership check — called for an
upgrade already in `ownedUpgrades` with sufficient money, it deducts the
price a second time and appends a duplicate id, so `ownedUpgrades` is a
duplicate-carrying list, not a set. -/
theorem buyUpgrade_no_ownership_check (st : GameState) (u : Upgrade)
    (howned : u.id ∈ st.ownedUpgrades) (haff : ¬st.money < u.price) :
    (buyUpgrade st u).money = st.money - u.price ∧
    (buyUpgrade st u).ownedUpgrades = st.ownedUpgrades ++ [u.id] ∧
    (buyUpgrade st u).ownedUpgrades.count u.id = st.ownedUpgrades.count u.id + 1 ∧
    2 ≤ (buyUpgrade st u).ownedUpgrades.count u.id := by
  rw [buyUpgrade, if_neg haff]
  refine ⟨rfl, rfl, ?_, ?_⟩
  · simp [List.count_append]
  · have h1 : 0 < st.ownedUpgrades.count u.id := List.count_pos_iff.mpr howned
    have h2 : ([u.id] : List String).count u.id = 1 := by simp
    rw [List.count_append, h2]
    omega

theorem buyUpgrade_no_ownership_check_witness :
    "grinder" ∈ ({ demoState with ownedUpgrades := ["grinder"] } : GameState).ownedUpgrades ∧
    ¬({ demoState with ownedUpgrades := ["grinder"] } : GameState).money < (30 : ℚ) ∧
    ((buyUpgrade { demoState with ownedUpgrades := ["grinder"] } ⟨"grinder", 30⟩).money =
        ({ demoState with ownedUpgrades := ["grinder"] } : GameState).money - 30 ∧
     (buyUpgrade { demoState with ownedUpgrades := ["grinder"] } ⟨"grinder", 30⟩).ownedUpgrades =
        ["grinder"] ++ ["grinder"] ∧
     (buyUpgrade { demoState with ownedUpgrades := ["grinder"] }
        ⟨"grinder", 30⟩).ownedUpgrades.count "grinder" =
        (["grinder"] : List String).count "grinder" + 1 ∧
     2 ≤ (buyUpgrade { demoState with ownedUpgrades := ["grinder"] }
        ⟨"grinder", 30⟩).ownedUpgrades.count "grinder") :=
  ⟨by decide, by norm_num [demoState],
   buyUpgrade_no_ownership_check { demoState with ownedUpgrades := ["grinder"] }
     ⟨"grinder", 30⟩ (by decide) (by norm_num [demoState])⟩

lemma lookup_mem_of_eq_some {mp : List (String × ℚ)} {id : String} {p : ℚ}
    (h : mp.lookup id = some p) : (id, p) ∈ mp := by
  induction mp with
  | nil => simp [List.lookup] at h
  | cons x xs ih =>
      rcases x with ⟨k, v⟩
      simp only [List.lookup] at h
      cases hkv : (id == k) with
      | true =>
          rw [hkv] at h
          simp only [Option.some.injEq] at h
          have hk : id = k := by simpa using hkv
          subst hk
          subst h
          exact .head xs
      | false =>
          rw [hkv] at h
          exact .tail _ (ih h)

lemma priceOf_of_pos (mp : List (String × ℚ)) (id : String)
    (hpos : ∀ pr ∈ mp, 0 < pr.2) :
    priceOf mp id = (mp.lookup id).getD 4 := by
  rw [priceOf]
  cases hl : mp.lookup id with
  | none => rfl
  | some p =>
      have hmem : (id, p) ∈ mp := lookup_mem_of_eq_some hl
      have hp : 0 < p := hpos (id, p) hmem
      simp [ne_of_gt hp]

lemma foldl_add_eq_sum (f : MenuItem → ℚ) (l : List MenuItem) (a : ℚ) :
    l.foldl (fun s it => s + f it) a = a + (l.map f).sum := by
  induction l generalizing a with
  | nil => simp
  | cons x xs ih => simp [ih]; ring

/-- C3: `completeOrder(order, quality)` adds `payment + tip` to money
where payment sums the menu price of every order item (fallback 4 for
unlisted items) and `tip = ⌊payment · 0.2 · m⌋` with `m = 1.3` for
quality ≥ 80, `1.1` for quality ≥ 50, else `0.8`; it increments
`customersServed` by exactly 1 and moves rating by +0.1 / 0 / −0.1 by
the same thresholds, clamped into [1, 5]; with payment 5 and quality 90
the tip is `⌊5 · 0.2 · 1.3⌋ = 1` and the total 6. -/
theorem completeOrder_economy (st : GameState) (i : ℕ) (order : Order) (quality : ℚ)
    (hord : st.activeOrders.get? i = some order)
    (hpos : ∀ pr ∈ st.menuPrices, 0 < pr.2) :
    (completeOrder st i quality).money = st.money +
      (orderPayment st.menuPrices order.items +
       (⌊orderPayment st.menuPrices order.items * (1 / 5) *
         (if quality ≥ 80 then 13 / 10 else if quality ≥ 50 then 11 / 10 else 4 / 5)⌋ : ℤ)) ∧
    (completeOrder st i quality).customersServed = st.customersServed + 1 ∧
    (completeOrder st i quality).rating =
      max 1 (min 5 (st.rating +
        (if quality ≥ 80 then 1 / 10 else if quality ≥ 50 then 0 else -(1 / 10)))) ∧
    1 ≤ (completeOrder st i quality).rating ∧
    (completeOrder st i quality).rating ≤ 5 ∧
    orderPayment st.menuPrices order.items =
      (order.items.map (fun it => (st.menuPrices.lookup it.id).getD 4)).sum ∧
    (⌊(5 : ℚ) * (1 / 5) * (13 / 10)⌋ : ℤ) = 1 ∧
    (5 : ℚ) + (⌊(5 : ℚ) * (1 / 5) * (13 / 10)⌋ : ℤ) = 6 := by
  rw [completeOrder, hord]
  refine ⟨rfl, rfl, rfl, ?_, ?_, ?_, ?_, ?_⟩
  · exact le_max_left 1 _
  · exact max_le (by norm_num) (min_le_left 5 _)
  · rw [orderPayment, foldl_add_eq_sum (fun it => priceOf st.menuPrices it.id)]
    rw [zero_add]
    congr 1
    exact List.map_congr_left fun it _ => priceOf_of_pos st.menuPrices it.id hpos
  · norm_num
  · norm_num

/-- The order used by the `completeOrder` witness: one latte priced 5. -/
def c3Order : Order := { customerId := 0, items := [⟨"latte", ItemType.drink⟩], startTime := 0 }

/-- The session used by the `completeOrder` witness. -/
def c3State : GameState :=
  { demoState with
    activeOrders := [c3Order]
    customers := [{ id := 0, customerType := "regular", cstate := .waiting,
                    orderContent := some c3Order.items }] }

theorem completeOrder_economy_witness :
    c3State.activeOrders.get? 0 = some c3Order ∧
    (∀ pr ∈ c3State.menuPrices, 0 < pr.2) ∧
    (completeOrder c3State 0 90).money = 106 ∧
    (completeOrder c3State 0 90).customersServed = 1 ∧
    (completeOrder c3State 0 90).rating = 5 := by
  have h := completeOrder_economy c3State 0 c3Order 90 rfl
    (by
      intro pr hpr
      simp only [c3State, demoState, List.mem_singleton] at hpr
      subst hpr
      norm_num)
  refine ⟨rfl, ?_, ?_, ?_, ?_⟩
  · intro pr hpr
    simp only [c3State, demoState, List.mem_singleton] at hpr
    subst hpr
    norm_num
  · have h1 := h.1
    have hpay : orderPayment c3State.menuPrices c3Order.items = 5 := by
      norm_num [orderPayment, priceOf, c3State, c3Order, demoState, List.lookup]
    rw [hpay] at h1
    rw [h1]
    norm_num [c3State, demoState]
  · have h2 := h.2.1
    rw [h2]
    norm_num [c3State, demoState]
  · have h3 := h.2.2.1
    rw [h3]
    norm_num [c3State, demoState]

lemma foldl_addToCup_quality (l : List Ingredient) (c : IngredientSet) (q : ℚ) :
    (l.foldl addToCup (.cup c q)).quality = q := by
  induction l generalizing c with
  | nil => rfl
  | cons i is ih => exact ih (c.set i true)

/-- C4 (code bug): the cup's `quality` is initialized to 100 and no
completed mini-game (nor `addToCup`, the only station effect) ever
writes it — the mini-game result stays in `miniGameState.quality` and is
only used for popups.  Hence after any sequence of station interactions
the cup still serves with quality 100: concretely, a tap game finished
at elapsed 5000 ms scores 40, yet the cup it poured into is served with
quality 100, contradicting the claim that the served quality equals the
mini-game score. -/
theorem cup_quality_never_updated :
    (∀ (held : HeldItem) (i : Ingredient), (addToCup held i).quality = held.quality) ∧
    (∀ l : List Ingredient, (l.foldl addToCup freshCup).quality = 100 ∧
      servedQuality (l.foldl addToCup freshCup) = 100) ∧
    (handleMiniGameInput
      { active := true, type := .tap, markerPos := 0, markerDirection := 1,
        targetStart := 35, targetEnd := 65, tapProgress := 11, tapRequired := 12,
        quality := 0, startTime := 0 } 5000).quality = 40 ∧
    servedQuality (addToCup freshCup .milk) = 100 := by
  refine ⟨fun held i => by cases held <;> rfl, fun l => ?_, ?_, ?_⟩
  · have hq : (l.foldl addToCup freshCup).quality = 100 := foldl_addToCup_quality l _ 100
    exact ⟨hq, by rw [servedQuality, hq]; norm_num⟩
  · norm_num [handleMiniGameInput]
  · norm_num [servedQuality, addToCup, freshCup, HeldItem.quality, IngredientSet.empty]

lemma findIdxOpt_some_spec {α : Type} (p : α → Bool) :
    ∀ (l : List α) (i : ℕ), findIdxOpt p l = some i →
      i < l.length ∧ ∃ a, l.get? i = some a ∧ p a = true := by
  intro l
  induction l with
  | nil => intro i h; simp [findIdxOpt] at h
  | cons a as ih =>
      intro i h
      rw [findIdxOpt] at h
      split_ifs at h with hp
      · obtain rfl : (0 : ℕ) = i := by simpa using h
        exact ⟨Nat.succ_pos _, a, rfl, hp⟩
      · obtain ⟨j, hj, rfl⟩ : ∃ j, findIdxOpt p as = some j ∧ j + 1 = i := by
          simpa using h
        obtain ⟨hlt, b, hb, hpb⟩ := ih j hj
        exact ⟨Nat.succ_lt_succ hlt, b, by simpa using hb, hpb⟩

lemma length_eraseIdx_add_one {α : Type} :
    ∀ (l : List α) (i : ℕ), i < l.length → (l.eraseIdx i).length + 1 = l.length := by
  intro l
  induction l with
  | nil => intro i h; simp at h
  | cons a as ih =>
      intro i h
      cases i with
      | zero => simp [List.eraseIdx]
      | succ j =>
          have hj := ih j (by simpa using h)
          simp only [List.eraseIdx, List.length_cons]
          omega

lemma mem_of_getQ_eq_some {α : Type} :
    ∀ {l : List α} {i : ℕ} {a : α}, l.get? i = some a → a ∈ l := by
  intro l
  induction l with
  | nil => intro i a h; simp at h
  | cons x xs ih =>
      intro i a h
      cases i with
      | zero =>
          obtain rfl : x = a := by simpa using h
          exact .head xs
      | succ j => exact .tail x (ih (by simpa using h))

/-- The number of customers currently in the `leaving` state. -/
def leavingCount (cs : List Customer) : ℕ :=
  (cs.filter (fun c => c.cstate == CState.leaving)).length

lemma leavingCount_cons (c : Customer) (cs : List Customer) :
    leavingCount (c :: cs) = (if c.cstate = .leaving then 1 else 0) + leavingCount cs := by
  by_cases h : c.cstate = .leaving
  · simp [leavingCount, List.filter_cons, h]
    omega
  · simp [leavingCount, List.filter_cons, h]

lemma setLeaving_eq_of_forall_ne (cs : List Customer) (cid : ℕ)
    (h : ∀ c ∈ cs, c.id ≠ cid) : setLeaving cs cid = cs := by
  induction cs with
  | nil => rfl
  | cons d ds ih =>
      simp only [setLeaving, List.map_cons]
      rw [if_neg (h d (.head ds))]
      have htail : setLeaving ds cid = ds := ih fun c hc => h c (.tail d hc)
      simp only [setLeaving] at htail
      rw [htail]

lemma leavingCount_setLeaving (cs : List Customer) (cid : ℕ)
    (hnodup : (cs.map Customer.id).Nodup)
    (c0 : Customer) (hc0 : c0 ∈ cs) (hid : c0.id = cid) (hcl : c0.cstate ≠ .leaving) :
    leavingCount (setLeaving cs cid) = leavingCount cs + 1 := by
  induction cs with
  | nil => cases hc0
  | cons d ds ih =>
      simp only [List.map_cons, List.nodup_cons] at hnodup
      obtain ⟨hdnot, hnd⟩ := hnodup
      have hc0d : c0 = d ∨ c0 ∈ ds := by simpa using hc0
      by_cases hd : d.id = cid
      · have htail : setLeaving ds cid = ds := by
          refine setLeaving_eq_of_forall_ne ds cid fun c hc hceq => hdnot ?_
          rw [hd, ← hceq]
          exact List.mem_map_of_mem Customer.id hc
        have hdstate : d.cstate ≠ .leaving := by
          rcases hc0d with rfl | hmem2
          · exact hcl
          · exact absurd (by rw [hd, ← hid]; exact List.mem_map_of_mem Customer.id hmem2) hdnot
        have hhead : setLeaving (d :: ds) cid =
            ({ d with cstate := .leaving } : Customer) :: setLeaving ds cid := by
          simp only [setLeaving, List.map_cons, if_pos hd]
        rw [hhead, htail, leavingCount_cons, leavingCount_cons]
        simp [hdstate]
        omega
      · have hc0mem : c0 ∈ ds := by
          rcases hc0d with rfl | hmem2
          · exact absurd hid hd
          · exact hmem2
        have hhead : setLeaving (d :: ds) cid = d :: setLeaving ds cid := by
          simp only [setLeaving, List.map_cons, if_neg hd]
        rw [hhead, leavingCount_cons, leavingCount_cons, ih hnd hc0mem]
        omega

/-- C2: every `serveToCustomer` call either succeeds — removing exactly
one order from `activeOrders`, transitioning exactly one customer to
leaving, and clearing the held item — or is rejected (nothing held,
customer still entering, no order found, or non-matching item), in which
case the whole session state (activeOrders, customers, money, rating,
customersServed, held item) is unchanged. -/
theorem serveToCustomer_success_or_unchanged (recipes : RecipeMap) (st : GameState)
    (customer : Customer)
    (hmem : customer ∈ st.customers)
    (hnodup : (st.customers.map Customer.id).Nodup)
    (hord : ∀ o ∈ st.activeOrders, ∀ d ∈ st.customers, d.id = o.customerId →
      d.cstate ≠ .leaving) :
    ((serveToCustomer recipes st customer).1 = .served ∧
     customer.cstate ≠ .entering ∧
     (∃ i, i < st.activeOrders.length ∧
       (serveToCustomer recipes st customer).2.activeOrders = st.activeOrders.eraseIdx i) ∧
     (serveToCustomer recipes st customer).2.activeOrders.length + 1 =
       st.activeOrders.length ∧
     (serveToCustomer recipes st customer).2.customers = setLeaving st.customers customer.id ∧
     leavingCount (serveToCustomer recipes st customer).2.customers =
       leavingCount st.customers + 1 ∧
     (serveToCustomer recipes st customer).2.grabbedObject = none) ∨
    ((serveToCustomer recipes st customer).1 ≠ .served ∧
     (serveToCustomer recipes st customer).2 = st) := by
  cases hgrab : st.grabbedObject with
  | none =>
      right
      have hserve : serveToCustomer recipes st customer = (.nothingToServe, st) := by
        simp [serveToCustomer, hgrab]
      rw [hserve]
      exact ⟨(fun h => nomatch h), rfl⟩
  | some held =>
      by_cases hent : customer.cstate = CState.entering
      · right
        have hserve : serveToCustomer recipes st customer = (.stillWalking, st) := by
          simp [serveToCustomer, hgrab, hent]
        rw [hserve]
        exact ⟨(fun h => nomatch h), rfl⟩
      · cases hfind : findIdxOpt (fun o => o.customerId == customer.id) st.activeOrders with
        | none =>
            right
            have hserve : serveToCustomer recipes st customer =
                (if customer.orderContent.isSome then (.orderPending, st)
                 else (.noOrder, st)) := by
              simp [serveToCustomer, hgrab, hent, hfind]
            rw [hserve]
            split_ifs
            · exact ⟨(fun h => nomatch h), rfl⟩
            · exact ⟨(fun h => nomatch h), rfl⟩
        | some i =>
            obtain ⟨hlt, order0, hget, hpred⟩ :=
              findIdxOpt_some_spec (fun o => o.customerId == customer.id) st.activeOrders i hfind
            have hcid : order0.customerId = customer.id := by simpa using hpred
            have hget2 : st.activeOrders[i]? = some order0 := by
              simpa [List.get?_eq_getElem?] using hget
            by_cases hmatch : itemMatchesOrder recipes held order0.items = true
            · left
              have hserve : serveToCustomer recipes st customer =
                  (.served,
                   { completeOrder st i (servedQuality held) with grabbedObject := none }) := by
                simp [serveToCustomer, hgrab, hent, hfind, hget2, hmatch]
              have hco1 : (completeOrder st i (servedQuality held)).activeOrders =
                  st.activeOrders.eraseIdx i := by
                rw [completeOrder, hget]
              have hco2 : (completeOrder st i (servedQuality held)).customers =
                  setLeaving st.customers customer.id := by
                rw [completeOrder, hget]
                show setLeaving st.customers order0.customerId = _
                rw [hcid]
              have hstate : customer.cstate ≠ CState.leaving :=
                hord order0 (mem_of_getQ_eq_some hget) customer hmem hcid.symm
              rw [hserve]
              refine ⟨rfl, hent, ⟨i, hlt, hco1⟩, ?_, hco2, ?_, rfl⟩
              · rw [show ({ completeOrder st i (servedQuality held) with
                    grabbedObject := none } : GameState).activeOrders =
                    st.activeOrders.eraseIdx i from hco1]
                exact length_eraseIdx_add_one st.activeOrders i hlt
              · rw [show ({ completeOrder st i (servedQuality held) with
                    grabbedObject := none } : GameState).customers =
                    setLeaving st.customers customer.id from hco2]
                exact leavingCount_setLeaving st.customers customer.id hnodup
                  customer hmem rfl hstate
            · right
              have hserve : serveToCustomer recipes st customer = (.wrongItem, st) := by
                simp [serveToCustomer, hgrab, hent, hfind, hget2, hmatch]
              rw [hserve]
              exact ⟨(fun h => nomatch h), rfl⟩

/-- The concrete customer used by the `serveToCustomer` witness. -/
def c2Customer : Customer :=
  { id := 0, customerType := "regular", cstate := .waiting,
    orderContent := some [⟨"latte", ItemType.drink⟩] }

/-- The session used by the `serveToCustomer` witness: one waiting
customer with a latte order, a matching cup in hand. -/
def c2State : GameState :=
  { demoState with
    activeOrders := [{ customerId := 0, items := [⟨"latte", ItemType.drink⟩], startTime := 0 }]
    customers := [c2Customer]
    grabbedObject := some (.cup ⟨true, true, false, false, false⟩ 100) }

theorem serveToCustomer_success_or_unchanged_witness :
    c2Customer ∈ c2State.customers ∧
    (c2State.customers.map Customer.id).Nodup ∧
    (∀ o ∈ c2State.activeOrders, ∀ d ∈ c2State.customers, d.id = o.customerId →
      d.cstate ≠ .leaving) ∧
    (((serveToCustomer demoRecipes c2State c2Customer).1 = .served ∧
      c2Customer.cstate ≠ .entering ∧
      (∃ i, i < c2State.activeOrders.length ∧
        (serveToCustomer demoRecipes c2State c2Customer).2.activeOrders =
          c2State.activeOrders.eraseIdx i) ∧
      (serveToCustomer demoRecipes c2State c2Customer).2.activeOrders.length + 1 =
        c2State.activeOrders.length ∧
      (serveToCustomer demoRecipes c2State c2Customer).2.customers =
        setLeaving c2State.customers c2Customer.id ∧
      leavingCount (serveToCustomer demoRecipes c2State c2Customer).2.customers =
        leavingCount c2State.customers + 1 ∧
      (serveToCustomer demoRecipes c2State c2Customer).2.grabbedObject = none) ∨
     ((serveToCustomer demoRecipes c2State c2Customer).1 ≠ .served ∧
      (serveToCustomer demoRecipes c2State c2Customer).2 = c2State)) :=
  ⟨by decide, by decide, by decide,
   serveToCustomer_success_or_unchanged demoRecipes c2State c2Customer
     (by decide) (by decide) (by decide)⟩

lemma serveToCustomer_state_shape (recipes : RecipeMap) (st : GameState) (customer : Customer) :
    (serveToCustomer recipes st customer).2 = st ∨
    ∃ i cid, (serveToCustomer recipes st customer).2.activeOrders = st.activeOrders.eraseIdx i ∧
      (serveToCustomer recipes st customer).2.customers = setLeaving st.customers cid ∧
      (serveToCustomer recipes st customer).2.nextId = st.nextId := by
  cases hgrab : st.grabbedObject with
  | none => left; simp [serveToCustomer, hgrab]
  | some held =>
      by_cases hent : customer.cstate = CState.entering
      · left; simp [serveToCustomer, hgrab, hent]
      · cases hfind : findIdxOpt (fun o => o.customerId == customer.id) st.activeOrders with
        | none =>
            left
            simp [serveToCustomer, hgrab, hent, hfind, apply_ite Prod.snd]
        | some i =>
            obtain ⟨hlt, order0, hget, hpred⟩ :=
              findIdxOpt_some_spec (fun o => o.customerId == customer.id) st.activeOrders i hfind
            have hget2 : st.activeOrders[i]? = some order0 := by
              simpa [List.get?_eq_getElem?] using hget
            by_cases hmatch : itemMatchesOrder recipes held order0.items = true
            · right
              have hserve : serveToCustomer recipes st customer =
                  (.served,
                   { completeOrder st i (servedQuality held) with grabbedObject := none }) := by
                simp [serveToCustomer, hgrab, hent, hfind, hget2, hmatch]
              refine ⟨i, order0.customerId, ?_, ?_, ?_⟩ <;> rw [hserve]
              · show (completeOrder st i (servedQuality held)).activeOrders = _
                rw [completeOrder, hget]
              · show (completeOrder st i (servedQuality held)).customers = _
                rw [completeOrder, hget]
              · show (completeOrder st i (servedQuality held)).nextId = _
                rw [completeOrder, hget]
            · left
              simp [serveToCustomer, hgrab, hent, hfind, hget2, hmatch]

/-- The core operations as a step relation on the session state: customer
spawn, arrival at the counter (order registration), a serve attempt, the
end of a leave animation, item pickup / station use / drop, a shop
purchase, and a session reset (`startGame` / `quitToMenu`). -/
inductive GameStep (recipes : RecipeMap) (menu : List MenuItem) (maxCustomers : ℕ) :
    GameState → GameState → Prop
  | spawn (st : GameState) (customerType : String) (r1 r2 r3 : ℚ)
      (h1 : 0 ≤ r1) (h2 : r1 < 1) (h3 : 0 ≤ r2) (h4 : r2 < 1) (h5 : 0 ≤ r3) (h6 : r3 < 1) :
      GameStep recipes menu maxCustomers st
        (spawnCustomer menu maxCustomers st customerType r1 r2 r3)
  | arrive (st : GameState) (cid now : ℕ) :
      GameStep recipes menu maxCustomers st (arriveAtCounter st cid now)
  | serve (st : GameState) (customer : Customer) (hc : customer ∈ st.customers) :
      GameStep recipes menu maxCustomers st (serveToCustomer recipes st customer).2
  | leave (st : GameState) (cid : ℕ) :
      GameStep recipes menu maxCustomers st (removeLeavingCustomer st cid)
  | grabNewCup (st : GameState) :
      GameStep recipes menu maxCustomers st { st with grabbedObject := some freshCup }
  | grabNewPastry (st : GameState) :
      GameStep recipes menu maxCustomers st { st with grabbedObject := some freshPastry }
  | station (st : GameState) (i : Ingredient) :
      GameStep recipes menu maxCustomers st
        { st with grabbedObject := st.grabbedObject.map (fun held => addToCup held i) }
  | drop (st : GameState) :
      GameStep recipes menu maxCustomers st { st with grabbedObject := none }
  | buy (st : GameState) (u : Upgrade) :
      GameStep recipes menu maxCustomers st (buyUpgrade st u)
  | reset (st : GameState) (money0 : ℚ) :
      GameStep recipes menu maxCustomers st
        { st with money := money0, rating := 5, customersServed := 0,
                  activeOrders := [], customers := [] }

/-- States reachable from a session start (`startGame`: empty customer
and order lists, nothing held) through the core operations. -/
inductive Reachable (recipes : RecipeMap) (menu : List MenuItem) (maxCustomers : ℕ) :
    GameState → Prop
  | init (money0 : ℚ) (mp : List (String × ℚ)) :
      Reachable recipes menu maxCustomers
        { money := money0, rating := 5, customersServed := 0, activeOrders := [],
          customers := [], menuPrices := mp, grabbedObject := none,
          ownedUpgrades := [], nextId := 0 }
  | step {st st' : GameState} :
      Reachable recipes menu maxCustomers st →
      GameStep recipes menu maxCustomers st st' →
      Reachable recipes menu maxCustomers st'

/-- The customer/order bookkeeping invariant: customer ids are fresh and
distinct, order references point below the id supply, no entering
customer is referenced by an active order, and every spawned customer
already carries generated order content. -/
def CoreInv (st : GameState) : Prop :=
  (∀ c ∈ st.customers, c.id < st.nextId) ∧
  (st.customers.map Customer.id).Nodup ∧
  (∀ o ∈ st.activeOrders, o.customerId < st.nextId) ∧
  (∀ c ∈ st.customers, c.cstate = .entering → ∀ o ∈ st.activeOrders, o.customerId ≠ c.id) ∧
  (∀ c ∈ st.customers, c.orderContent.isSome)

lemma coreInv_spawn (menu : List MenuItem) (maxCustomers : ℕ) (st : GameState)
    (customerType : String) (r1 r2 r3 : ℚ) (h : CoreInv st) :
    CoreInv (spawnCustomer menu maxCustomers st customerType r1 r2 r3) := by
  obtain ⟨h1, h2, h3, h4, h5⟩ := h
  rw [spawnCustomer]
  split_ifs with hcap
  · exact ⟨h1, h2, h3, h4, h5⟩
  · refine ⟨?_, ?_, ?_, ?_, ?_⟩
    · intro c hc
      rcases List.mem_append.mp hc with hmem | hmem
      · exact Nat.lt_succ_of_lt (h1 c hmem)
      · have hcc := List.mem_singleton.mp hmem
        subst hcc
        exact Nat.lt_succ_self st.nextId
    · show ((st.customers ++ [_]).map Customer.id).Nodup
      rw [List.map_append]
      refine List.Nodup.append h2 (List.nodup_singleton _) ?_
      intro x hx hx2
      obtain ⟨c, hc, rfl⟩ := List.mem_map.mp hx
      have hx3 : c.id = st.nextId := by simpa using hx2
      exact absurd (hx3 ▸ h1 c hc) (Nat.lt_irrefl _)
    · intro o ho
      exact Nat.lt_succ_of_lt (h3 o ho)
    · intro c hc hent o ho
      rcases List.mem_append.mp hc with hmem | hmem
      · exact h4 c hmem hent o ho
      · have hcc := List.mem_singleton.mp hmem
        subst hcc
        intro heq
        exact absurd (heq ▸ h3 o ho) (Nat.lt_irrefl _)
    · intro c hc
      rcases List.mem_append.mp hc with hmem | hmem
      · exact h5 c hmem
      · have hcc := List.mem_singleton.mp hmem
        subst hcc
        rfl

lemma coreInv_arrive (st : GameState) (cid now : ℕ) (h : CoreInv st) :
    CoreInv (arriveAtCounter st cid now) := by
  obtain ⟨h1, h2, h3, h4, h5⟩ := h
  unfold arriveAtCounter
  split
  · exact ⟨h1, h2, h3, h4, h5⟩
  · rename_i c0 hfound
    split_ifs with hent0
    · have hc0mem : c0 ∈ st.customers := List.mem_of_find?_eq_some hfound
      have hc0id : c0.id = cid := by simpa using List.find?_some hfound
      have hcidlt : cid < st.nextId := hc0id ▸ h1 c0 hc0mem
      refine ⟨?_, ?_, ?_, ?_, ?_⟩
      · intro c hc
        obtain ⟨d, hd, rfl⟩ := List.mem_map.mp hc
        have hdid : (if d.id = cid then ({ d with cstate := CState.waiting } : Customer)
            else d).id = d.id := by split_ifs <;> rfl
        rw [hdid]
        exact h1 d hd
      · show ((st.customers.map _).map Customer.id).Nodup
        rw [List.map_map]
        have hmid : st.customers.map (Customer.id ∘ fun d =>
            if d.id = cid then { d with cstate := CState.waiting } else d) =
            st.customers.map Customer.id := by
          refine List.map_congr_left fun d _ => ?_
          by_cases hdi : d.id = cid <;> simp [hdi]
        rw [hmid]
        exact h2
      · intro o ho
        rcases List.mem_append.mp ho with hmem | hmem
        · exact h3 o hmem
        · have hoo := List.mem_singleton.mp hmem
          subst hoo
          exact hcidlt
      · intro c hc hent o ho
        obtain ⟨d, hd, rfl⟩ := List.mem_map.mp hc
        by_cases hdi : d.id = cid
        · rw [if_pos hdi] at hent
          exact nomatch hent
        · rw [if_neg hdi] at hent ⊢
          rcases List.mem_append.mp ho with hmem | hmem
          · exact h4 d hd hent o hmem
          · have hoo := List.mem_singleton.mp hmem
            subst hoo
            exact fun heq => hdi heq.symm
      · intro c hc
        obtain ⟨d, hd, rfl⟩ := List.mem_map.mp hc
        have hdo : (if d.id = cid then ({ d with cstate := CState.waiting } : Customer)
            else d).orderContent = d.orderContent := by split_ifs <;> rfl
        rw [hdo]
        exact h5 d hd
    · exact ⟨h1, h2, h3, h4, h5⟩

lemma coreInv_serve (recipes : RecipeMap) (st : GameState) (customer : Customer)
    (h : CoreInv st) : CoreInv (serveToCustomer recipes st customer).2 := by
  rcases serveToCustomer_state_shape recipes st customer with heq | ⟨i, cid, ho, hc, hn⟩
  · rw [heq]; exact h
  · obtain ⟨h1, h2, h3, h4, h5⟩ := h
    refine ⟨?_, ?_, ?_, ?_, ?_⟩
    · intro c hcmem
      rw [hc, setLeaving] at hcmem
      obtain ⟨d, hd, rfl⟩ := List.mem_map.mp hcmem
      rw [hn]
      have hdid : (if d.id = cid then ({ d with cstate := CState.leaving } : Customer)
          else d).id = d.id := by split_ifs <;> rfl
      rw [hdid]
      exact h1 d hd
    · rw [hc, setLeaving, List.map_map]
      have hmid : st.customers.map (Customer.id ∘ fun d =>
          if d.id = cid then { d with cstate := CState.leaving } else d) =
          st.customers.map Customer.id := by
        refine List.map_congr_left fun d _ => ?_
        by_cases hdi : d.id = cid <;> simp [hdi]
      rw [hmid]
      exact h2
    · intro o ho2
      rw [ho] at ho2
      rw [hn]
      exact h3 o ((List.eraseIdx_sublist st.activeOrders i).subset ho2)
    · intro c hcmem hent o ho2
      rw [hc, setLeaving] at hcmem
      rw [ho] at ho2
      obtain ⟨d, hd, rfl⟩ := List.mem_map.mp hcmem
      have homem : o ∈ st.activeOrders := (List.eraseIdx_sublist st.activeOrders i).subset ho2
      by_cases hdi : d.id = cid
      · rw [if_pos hdi] at hent
        exact nomatch hent
      · rw [if_neg hdi] at hent ⊢
        exact h4 d hd hent o homem
    · intro c hcmem
      rw [hc, setLeaving] at hcmem
      obtain ⟨d, hd, rfl⟩ := List.mem_map.mp hcmem
      have hdo : (if d.id = cid then ({ d with cstate := CState.leaving } : Customer)
          else d).orderContent = d.orderContent := by split_ifs <;> rfl
      rw [hdo]
      exact h5 d hd

lemma coreInv_leave (st : GameState) (cid : ℕ) (h : CoreInv st) :
    CoreInv (removeLeavingCustomer st cid) := by
  obtain ⟨h1, h2, h3, h4, h5⟩ := h
  unfold removeLeavingCustomer
  split
  · exact ⟨h1, h2, h3, h4, h5⟩
  · split_ifs with hl
    · refine ⟨?_, ?_, ?_, ?_, ?_⟩
      · intro c hc
        exact h1 c (List.mem_of_mem_eraseP hc)
      · exact ((List.eraseP_sublist st.customers).map Customer.id).nodup h2
      · exact h3
      · intro c hc hent o ho
        exact h4 c (List.mem_of_mem_eraseP hc) hent o ho
      · intro c hc
        exact h5 c (List.mem_of_mem_eraseP hc)
    · exact ⟨h1, h2, h3, h4, h5⟩

lemma reachable_coreInv (recipes : RecipeMap) (menu : List MenuItem) (maxCustomers : ℕ)
    (st : GameState) (h : Reachable recipes menu maxCustomers st) : CoreInv st := by
  induction h with
  | init money0 mp =>
      refine ⟨?_, ?_, ?_, ?_, ?_⟩ <;> simp
  | step hreach hstep ih =>
      cases hstep with
      | spawn customerType r1 r2 r3 h1 h2 h3 h4 h5 h6 =>
          exact coreInv_spawn _ _ _ customerType r1 r2 r3 ih
      | arrive cid now => exact coreInv_arrive _ cid now ih
      | serve customer hc => exact coreInv_serve recipes _ customer ih
      | leave cid => exact coreInv_leave _ cid ih
      | grabNewCup => exact ih
      | grabNewPastry => exact ih
      | station i => exact ih
      | drop => exact ih
      | buy u =>
          rw [buyUpgrade]
          split_ifs <;> exact ih
      | reset money0 =>
          refine ⟨?_, ?_, ?_, ?_, ?_⟩ <;> simp

/-- The menu used by the customer-lifecycle witnesses: a single latte. -/
def c5Menu : List MenuItem := [⟨"latte", ItemType.drink⟩]

/-- A freshly started session (`startGame`): empty lists, nothing held. -/
def c5Init : GameState :=
  { money := 100, rating := 5, customersServed := 0, activeOrders := [],
    customers := [], menuPrices := [("latte", 5)], grabbedObject := none,
    ownedUpgrades := [], nextId := 0 }

/-- C5 counterexample: immediately after `spawnCustomer` the new
customer is still in state `entering`, yet its order content is already
generated and stored on it (`userData.order` is set at spawn, not at the
Entering→Waiting transition); `activeOrders` is still empty. -/
theorem spawn_generates_order_while_entering :
    (spawnCustomer c5Menu 6 c5Init "regular" 0 (1 / 2) 0).customers =
      [{ id := 0, customerType := "regular", cstate := .entering,
         orderContent := some [⟨"latte", ItemType.drink⟩] }] ∧
    (spawnCustomer c5Menu 6 c5Init "regular" 0 (1 / 2) 0).activeOrders = [] := by
  constructor
  · norm_num [spawnCustomer, generateOrder, c5Init, c5Menu]
  · norm_num [spawnCustomer, c5Init]

/-- C5 (amended): the order content is generated at spawn and stored on
the (still Entering) customer; it is registered in `activeOrders` only
at the Entering→Waiting arrival transition, which appends exactly the
customer's stored order.  Consequently, in every reachable session
state, a customer in state Entering never has an order in
`activeOrders`, but — contrary to the original claim — it does already
carry generated order content. -/
theorem entering_customer_order_tracking (recipes : RecipeMap) (menu : List MenuItem)
    (maxCustomers : ℕ) (st : GameState)
    (h : Reachable recipes menu maxCustomers st) :
    (∀ c ∈ st.customers, c.cstate = .entering →
      (∀ o ∈ st.activeOrders, o.customerId ≠ c.id) ∧ c.orderContent.isSome) ∧
    (∀ (st2 : GameState) (c0 : Customer) (now : ℕ),
      st2.customers.find? (fun c => c.id == c0.id) = some c0 →
      c0.cstate = .entering →
      (arriveAtCounter st2 c0.id now).activeOrders =
        st2.activeOrders ++ [{ customerId := c0.id, items := c0.orderContent.getD [],
                               startTime := now }]) := by
  have hinv := reachable_coreInv recipes menu maxCustomers st h
  constructor
  · exact fun c hc hent => ⟨hinv.2.2.2.1 c hc hent, hinv.2.2.2.2 c hc⟩
  · intro st2 c0 now hfound hent
    unfold arriveAtCounter
    rw [hfound]
    simp [hent]

/-- The customer produced by the witness spawn. -/
def c5Customer : Customer :=
  { id := 0, customerType := "regular", cstate := .entering,
    orderContent := some [⟨"latte", ItemType.drink⟩] }

theorem entering_customer_order_tracking_witness :
    ((∀ c ∈ (spawnCustomer c5Menu 6 c5Init "regular" 0 (1 / 2) 0).customers,
        c.cstate = .entering →
        (∀ o ∈ (spawnCustomer c5Menu 6 c5Init "regular" 0 (1 / 2) 0).activeOrders,
          o.customerId ≠ c.id) ∧ c.orderContent.isSome) ∧
     (∀ (st2 : GameState) (c0 : Customer) (now : ℕ),
        st2.customers.find? (fun c => c.id == c0.id) = some c0 →
        c0.cstate = .entering →
        (arriveAtCounter st2 c0.id now).activeOrders =
          st2.activeOrders ++ [{ customerId := c0.id, items := c0.orderContent.getD [],
                                 startTime := now }])) :=
  entering_customer_order_tracking demoRecipes c5Menu 6 _
    (Reachable.step (Reachable.init 100 [("latte", 5)])
      (GameStep.spawn c5Init "regular" 0 (1 / 2) 0 (by norm_num) (by norm_num)
        (by norm_num) (by norm_num) (by norm_num) (by norm_num)))
